import Mathlib

/-!
Formal model of the SuperSignal documentation pipeline
(`scripts/process_docs.py`, the Extractor, and
`scripts/generate_hyperliquid_docs.py`, the Renderer).

The Python code works by regular-expression scanning over HTML strings.
We embed it at the level of `List Char`, implementing each concrete
regular expression as a dedicated scanner with Python `re` semantics
(leftmost match, lazy `(.*?)` = shortest extension, greedy `[^>]*` =
splits at the first `>`, `re.IGNORECASE` = ASCII case folding,
`re.DOTALL` controls whether `.` may cross a newline).  Scanners that
restart after a match use a fuel argument; every successful match
consumes at least one character, so fuel equal to the input length is
always sufficient, and all definitions stay structurally recursive and
kernel-evaluable.
-/

namespace SuperSignal

/-- ASCII case-insensitive prefix test, modelling how `re.IGNORECASE`
treats the literal characters of a pattern. -/
def ciPref : List Char → List Char → Bool
  | [], _ => true
  | _ :: _, [] => false
  | p :: ps, c :: cs => (p.toLower == c.toLower) && ciPref ps cs

/-- Split a list at the first `'>'`: returns the characters before it and
the remainder after it.  This is exactly how a greedy `[^>]*>` (or, with a
nonempty-contents check, `[^>]+>`) matches: `[^>]` can never cross a `>`,
so the match always ends at the first `>`. -/
def takeToGt : List Char → Option (List Char × List Char)
  | [] => none
  | c :: t => if c = '>' then some ([], t)
      else match takeToGt t with
        | some (m, r) => some (c :: m, r)
        | none => none

/-- Lazy scan `(.*?)stop`: find the shortest prefix (the capture) after
which `stopN` matches; `stopN s` returns the number of characters the
stop pattern consumes at the head of `s`.  When `allowNl = false` the
capture may not contain a newline (a regex without `re.DOTALL`). -/
def lazyScan (stopN : List Char → Option Nat) (allowNl : Bool) :
    List Char → Option (List Char × List Char)
  | [] => match stopN [] with
      | some _ => some ([], [])
      | none => none
  | c :: t => match stopN (c :: t) with
      | some n => some ([], (c :: t).drop n)
      | none =>
        if allowNl = false && c = '\n' then none
        else match lazyScan stopN allowNl t with
          | some (m, r) => some (c :: m, r)
          | none => none

/-- Stop pattern: a case-insensitive literal. -/
def ciStop (lit : List Char) (s : List Char) : Option Nat :=
  if ciPref lit s then some lit.length else none

/-- Stop pattern: a case-sensitive literal (for `re.sub` without
`re.IGNORECASE`). -/
def litStop (lit : List Char) (s : List Char) : Option Nat :=
  if List.isPrefixOf lit s then some lit.length else none

/-- Driver in the style of `re.finditer`: walk the input left to right; at each
position try `tryM` (which receives the head character and the tail); on
a match emit the result and resume after the match, otherwise advance one
character.  `fuel` bounds the recursion; since every successful `tryM`
consumes at least one character, `fuel = length` is always enough. -/
def scanAux (tryM : Char → List Char → Option (β × List Char)) :
    Nat → List Char → List β
  | _, [] => []
  | 0, _ :: _ => []
  | n + 1, c :: t =>
    match tryM c t with
    | some (b, r) => b :: scanAux tryM n r
    | none => scanAux tryM n t

/-- Driver in the style of `re.sub(pattern, repl, s)`: like `scanAux` but rebuilds
the string, splicing in the replacement produced by `tryM` at each match. -/
def rwAux (tryM : Char → List Char → Option (List Char × List Char)) :
    Nat → List Char → List Char
  | _, [] => []
  | 0, rest => rest
  | n + 1, c :: t =>
    match tryM c t with
    | some (rep, r) => rep ++ rwAux tryM n r
    | none => c :: rwAux tryM n t

/-- One match attempt of `re.sub(r"<[^>]+>", "", s)`: at a `<`, consume up
to the first `>` provided at least one character lies between. -/
def tryStrip : Char → List Char → Option (List Char × List Char)
  | c, t => if c = '<' then
      match takeToGt t with
      | some (m, r) => if m.isEmpty then none else some ([], r)
      | none => none
    else none

/-- The tag-stripper `re.sub(r"<[^>]+>", "", s)`. -/
def stripTagsL (s : List Char) : List Char :=
  rwAux tryStrip s.length s

/-- Python `str.strip()` whitespace (ASCII part; the inputs in play are
ASCII). -/
def isPySpace (c : Char) : Bool :=
  c = ' ' || c = '\t' || c = '\n' || c = '\r' || c = '\x0b' || c = '\x0c'

/-- Python `str.strip()`. -/
def trimL (s : List Char) : List Char :=
  ((s.dropWhile isPySpace).reverse.dropWhile isPySpace).reverse

/-- Python `str.strip()` on strings. -/
def pyStrip (s : String) : String := String.mk (trimL s.data)

/-- One match attempt of a case-sensitive literal replacement. -/
def tryRep (pat rep : List Char) : Char → List Char → Option (List Char × List Char)
  | c, t => match pat with
    | [] => none
    | p :: ps =>
      if p == c && List.isPrefixOf ps t then some (rep, t.drop ps.length) else none

/-- Python `str.replace(pat, rep)`: replace every (non-overlapping,
left-to-right) occurrence. -/
def replaceL (pat rep s : List Char) : List Char :=
  rwAux (tryRep pat rep) s.length s

/-- Python `s.replace(pat, rep)` on strings. -/
def pyReplace (s pat rep : String) : String :=
  String.mk (replaceL pat.data rep.data s.data)

/-- Python `str.lower()` (ASCII part). -/
def pyLower (s : String) : String := String.mk (s.data.map Char.toLower)

/-! ## Extractor data model (`process_docs.py`) -/

/-- One entry of a page's `sections` list: `{"level": ..., "title": ...}`. -/
structure Heading where
  level : Nat
  title : String
deriving DecidableEq

/-- One entry of a page's `codeBlocks` list. -/
structure CodeBlock where
  language : String
  code : String
deriving DecidableEq

/-- One entry of a page's `tables` list. -/
structure TableRec where
  headers : List String
  rows : List (List String)
deriving DecidableEq

/-- The per-file record appended to `pages` (the spec's PageRecord). -/
structure Page where
  url : String
  title : String
  content : String
  sections : List Heading
  codeBlocks : List CodeBlock
  tables : List TableRec
deriving DecidableEq

/-! ## `extract_sections` — `r"<h([1-6])[^>]*>(.*?)</h>"`, IGNORECASE | DOTALL -/

/-- One match attempt of the heading pattern.  Note that the closing
token in the source regex is the literal `</h>` (no level digit). -/
def tryHeading : Char → List Char → Option (Heading × List Char)
  | c, t => if c = '<' then
      match t with
      | h :: d :: rest =>
        if (h = 'h' ∨ h = 'H') ∧ ('1' ≤ d ∧ d ≤ '6') then
          match takeToGt rest with
          | some (_, t2) =>
            match lazyScan (ciStop ['<', '/', 'h', '>']) true t2 with
            | some (mid, r) =>
              some (⟨d.toNat - 48, String.mk (trimL (stripTagsL mid))⟩, r)
            | none => none
          | none => none
        else none
      | _ => none
    else none

/-- All heading matches, in document order. -/
def scanSecs (s : List Char) : List Heading :=
  scanAux tryHeading s.length s

/-- Function `extract_sections` (process_docs.py, lines 35-47). -/
def extract_sections (html : String) : List Heading :=
  scanSecs html.data

/-! ## `extract_code_blocks` —
`r'<pre[^>]*><code[^>]*class="language-(\w+)"[^>]*>(.*?)</code></pre>'`,
IGNORECASE | DOTALL -/

/-- Word characters `\w` (ASCII part, `re.IGNORECASE` does not change it). -/
def wordChar (c : Char) : Bool := c.isAlphanum || c = '_'

/-- The literal `class="language-` of the pattern (lowercase; matching is
case-insensitive). -/
def langTokenL : List Char := "class=\"language-".data

/-- Find the capture of `class="language-(\w+)"` inside the `<code ...>`
tag segment.  The preceding `[^>]*` is greedy, so the regex engine uses
the *last* position at which the literal (followed by word characters and
a closing quote) matches; the recursion below prefers deeper (later)
occurrences for exactly that reason. -/
def lastLang : List Char → Option (List Char)
  | [] => none
  | c :: t =>
    match lastLang t with
    | some l => some l
    | none =>
      if ciPref langTokenL (c :: t) then
        let r := (c :: t).drop langTokenL.length
        let w := r.takeWhile wordChar
        match r.dropWhile wordChar with
        | '"' :: _ => if w.isEmpty then none else some w
        | _ => none
      else none

/-- The entity-"decoding" of process_docs.py line 57 as written in the
source: the replacement pairs are the *identity* (`"<" → "<"` etc.), so
no decoding happens; line 58 (`code.replace(""", '"')...`) is not even
syntactically valid Python (its string literals are mangled), so only the
trailing `.strip()` that the source intends can be modelled.  The result
is the raw capture, trimmed. -/
def mkCode (mid : List Char) : String :=
  String.mk (trimL
    (replaceL ['&'] ['&'] (replaceL ['>'] ['>'] (replaceL ['<'] ['<'] mid))))

/-- One match attempt of the code-block pattern. -/
def tryCode : Char → List Char → Option (CodeBlock × List Char)
  | c, t => if c = '<' ∧ ciPref ['p', 'r', 'e'] t then
      match takeToGt (t.drop 3) with
      | some (_, t2) =>
        if ciPref ['<', 'c', 'o', 'd', 'e'] t2 then
          match takeToGt (t2.drop 5) with
          | some (seg, t3) =>
            match lastLang seg with
            | some lang =>
              match lazyScan (ciStop ("</code></pre>".data)) true t3 with
              | some (mid, r) => some (⟨String.mk lang, mkCode mid⟩, r)
              | none => none
            | none => none
          | none => none
        else none
      | none => none
    else none

/-- Function `extract_code_blocks` (process_docs.py, lines 49-64). -/
def extract_code_blocks (html : String) : List CodeBlock :=
  scanAux tryCode html.data.length html.data

/-! ## `extract_title` — `re.search(r"<title>(.*?)</title>", html, re.IGNORECASE)` -/

/-- One match attempt of the title pattern (no DOTALL: the capture may
not cross a newline; the opening literal is exactly `<title>`, so a
title tag with attributes never matches). -/
def tryTitle : Char → List Char → Option (String × List Char)
  | c, t => if c = '<' ∧ ciPref ("title>".data) t then
      match lazyScan (ciStop ("</title>".data)) false (t.drop 6) with
      | some (mid, r) => some (String.mk (trimL (stripTagsL mid)), r)
      | none => none
    else none

/-- Like `re.search`: first position (left to right) at which the whole
pattern matches. -/
def findTitle : List Char → Option String
  | [] => none
  | c :: t =>
    match tryTitle c t with
    | some (s, _) => some s
    | none => findTitle t

/-- Function `extract_title` (process_docs.py, lines 102-106). -/
def extract_title (html : String) : String :=
  match findTitle html.data with
  | some s => s
  | none => "Untitled"

/-! ## `extract_tables` (process_docs.py, lines 66-100) -/

/-- One match attempt of `<name[^>]*>(.*?)</name>` (case-insensitive
literal tag name). -/
def tryTag (name : List Char) (allowNl : Bool) :
    Char → List Char → Option (List Char × List Char)
  | c, t => if c = '<' ∧ ciPref name t then
      match takeToGt (t.drop name.length) with
      | some (_, t2) =>
        match lazyScan (ciStop ('<' :: '/' :: (name ++ ['>']))) allowNl t2 with
        | some (mid, r) => some (mid, r)
        | none => none
      | none => none
    else none

/-- All matches of `<name[^>]*>(.*?)</name>`, as `re.finditer` yields them. -/
def scanTag (name : List Char) (allowNl : Bool) (s : List Char) : List (List Char) :=
  scanAux (tryTag name allowNl) s.length s

/-- First match of the same pattern, as `re.search` yields it. -/
def findTag (name : List Char) (allowNl : Bool) : List Char → Option (List Char)
  | [] => none
  | c :: t =>
    match tryTag name allowNl c t with
    | some (mid, _) => some mid
    | none => findTag name allowNl t

/-- Stop pattern for `</t[dh]>` (case-insensitive). -/
def cellStop : List Char → Option Nat
  | '<' :: '/' :: a :: b :: '>' :: _ =>
    if (a = 't' ∨ a = 'T') ∧ (b = 'd' ∨ b = 'D' ∨ b = 'h' ∨ b = 'H')
    then some 5 else none
  | _ => none

/-- One match attempt of `<t[dh][^>]*>(.*?)</t[dh]>` (no DOTALL). -/
def tryCell : Char → List Char → Option (List Char × List Char)
  | c, t => if c = '<' then
      match t with
      | a :: b :: rest =>
        if (a = 't' ∨ a = 'T') ∧ (b = 'd' ∨ b = 'D' ∨ b = 'h' ∨ b = 'H') then
          match takeToGt rest with
          | some (_, t2) =>
            match lazyScan cellStop false t2 with
            | some (mid, r) => some (mid, r)
            | none => none
          | none => none
        else none
      | _ => none
    else none

/-- Tag-strip and trim a captured cell, as lines 78 and 89 do. -/
def cellText (cell : List Char) : String :=
  String.mk (trimL (stripTagsL cell))

/-- Body of the per-`<table>` loop (lines 71-98): headers from the first
`<thead>`'s `<th>` cells, rows from the first `<tbody>` if present else
the whole table, keeping only non-empty rows; a table with neither
headers nor rows is dropped. -/
def parseTable (inner : List Char) : Option TableRec :=
  let headers :=
    match findTag ("thead".data) true inner with
    | some th => (scanTag ("th".data) false th).map cellText
    | none => []
  let rowSrc :=
    match findTag ("tbody".data) true inner with
    | some tb => tb
    | none => inner
  let rows :=
    ((scanTag ("tr".data) true rowSrc).map
      (fun tr => (scanAux tryCell tr.length tr).map cellText)).filter
      (fun r => !r.isEmpty)
  if headers.isEmpty && rows.isEmpty then none else some ⟨headers, rows⟩

/-- Function `extract_tables` (process_docs.py, lines 66-100). -/
def extract_tables (html : String) : List TableRec :=
  (scanTag ("table".data) true html.data).filterMap parseTable

/-! ## `extract_content` — the `TextExtractor` HTMLParser subclass
(process_docs.py, lines 8-33, 108-111)

`TextExtractor` drives Python's `html.parser`.  We model the stdlib
tokenizer for the plain, well-formed HTML in play: markup runs from a
`<` to the next `>`, everything between tags is a data segment, and the
subclass's own logic (lines 15-30) suppresses data while inside
`<script>`/`<style>`, tracked by one boolean per tag, not a stack.
Character-reference conversion and comment/doctype special-casing of the
stdlib parser are outside this model; no claim depends on them. -/

/-- Tag name as the parser reports it: leading letters, lowercased. -/
def tagNameL (tag : List Char) : List Char :=
  (tag.takeWhile Char.isAlpha).map Char.toLower

/-- Tokenizing walk; emits the data segments that `handle_data` appends. -/
def contentAux : Nat → Bool → Bool → List Char → List String
  | _, _, _, [] => []
  | 0, _, _, _ :: _ => []
  | n + 1, inScr, inSty, '<' :: t =>
    (match takeToGt t with
     | some (tag, r) =>
       match tag with
       | '/' :: nrest =>
         contentAux n
           (if tagNameL nrest = "script".data then false else inScr)
           (if tagNameL nrest = "style".data then false else inSty) r
       | _ =>
         contentAux n
           (if tagNameL tag = "script".data then true else inScr)
           (if tagNameL tag = "style".data then true else inSty) r
     | none => [])
  | n + 1, inScr, inSty, c :: t =>
    let seg := (c :: t).takeWhile (fun x => x ≠ '<')
    let rest := (c :: t).dropWhile (fun x => x ≠ '<')
    if inScr || inSty then contentAux n inScr inSty rest
    else String.mk seg :: contentAux n inScr inSty rest

/-- Function `extract_content` = `TextExtractor.get_text`: the data segments
joined with single spaces, then stripped. -/
def extract_content (html : String) : String :=
  pyStrip (String.intercalate " " (contentAux html.data.length false false html.data))

/-! ## The Extractor main loop (process_docs.py, lines 113-153) -/

/-- The aggregate JSON object (the spec's DocumentSet). -/
structure DocumentSet where
  baseUrl : String
  extractedAt : String
  pages : List Page
  totalPages : Nat
deriving DecidableEq

def base_url : String := "https://hyperliquid.gitbook.io/hyperliquid-docs"

/-- Body of the per-file branch (lines 120-145): URL reconstructed from
the filename, fields extracted from the HTML. -/
def processFile (filename html : String) : Page :=
  let pageName := filename.dropRight 5
  let url := if pageName == "index" then base_url
             else base_url ++ "/" ++ pyReplace pageName "_" "/"
  { url := url
    title := extract_title html
    content := extract_content html
    sections := extract_sections html
    codeBlocks := extract_code_blocks html
    tables := extract_tables html }

/-- The whole Extractor run (lines 114-153) over a directory listing,
modelled as a list of (filename, file contents); `now` stands for the
ambient `datetime.utcnow()` timestamp.  One `Page` is appended per file
whose name ends in `.html`; the output carries `totalPages = len(pages)`. -/
def runExtractor (now : String) (files : List (String × String)) : DocumentSet :=
  let pages := files.filterMap
    (fun f => if f.1.endsWith ".html" then some (processFile f.1 f.2) else none)
  { baseUrl := base_url, extractedAt := now ++ "Z",
    pages := pages, totalPages := pages.length }

/-! ## Renderer (`generate_hyperliquid_docs.py`) -/

/-- Python's `pat in s` (contiguous substring test). -/
def hasSub (s pat : String) : Bool := decide (pat.data <:+: s.data)

/-- Function `get_page_category` (generate_hyperliquid_docs.py, lines 34-71): the
if/elif chain, in source order. -/
def get_page_category (url : String) : String :=
  if hasSub url "/about-hyperliquid/" then "About Hyperliquid"
  else if hasSub url "/onboarding/" then "Onboarding"
  else if hasSub url "/hypercore/" then "HyperCore"
  else if hasSub url "/hyperevm/" then "HyperEVM"
  else if hasSub url "/trading/" then "Trading"
  else if hasSub url "/validators/" then "Validators"
  else if hasSub url "/for-developers/api/" then "API Documentation"
  else if hasSub url "/for-developers/hyperevm/" then "HyperEVM for Developers"
  else if hasSub url "/for-developers/nodes" then "Nodes"
  else if hasSub url "/historical-data/" then "Historical Data"
  else if hasSub url "/risks/" then "Risks"
  else if hasSub url "/referrals/" then "Referrals"
  else if hasSub url "/points/" then "Points"
  else if hasSub url "/bug-bounty-program/" then "Bug Bounty Program"
  else if hasSub url "/audits/" then "Audits"
  else if hasSub url "/brand-kit/" then "Brand Kit"
  else if hasSub url "/hyperliquid-improvement-proposals-" then
    "Hyperliquid Improvement Proposals (HIPs)"
  else "Other"

/-! ### `clean_content` (lines 13-23)

Four `re.sub` calls, none with DOTALL or IGNORECASE, then `.strip()`. -/

/-- The sub `re.sub(r'Hyperliquid DocsCtrlk.*?Powered by GitBook', '', s)`. -/
def trySub1 : Char → List Char → Option (List Char × List Char)
  | c, t => if c = 'H' ∧ List.isPrefixOf ("yperliquid DocsCtrlk".data) t then
      match lazyScan (litStop ("Powered by GitBook".data)) false (t.drop 20) with
      | some (_, r) => some ([], r)
      | none => none
    else none

/-- The sub `re.sub(r'Previous.*?Next.*', '', s)`: after the lazy part reaches
`Next`, the trailing greedy `.*` eats the rest of the line. -/
def trySub3 : Char → List Char → Option (List Char × List Char)
  | c, t => if c = 'P' ∧ List.isPrefixOf ("revious".data) t then
      match lazyScan (litStop ("Next".data)) false (t.drop 7) with
      | some (_, r) => some ([], r.dropWhile (fun x => x ≠ '\n'))
      | none => none
    else none

/-- The sub `re.sub(r'\n{3,}', '\n\n', s)`: a maximal run of three or more
newlines collapses to exactly two. -/
def trySub4 : Char → List Char → Option (List Char × List Char)
  | c, t => if c = '\n' then
      (if 3 ≤ 1 + (t.takeWhile (fun x => x = '\n')).length
       then some (['\n', '\n'], t.dropWhile (fun x => x = '\n'))
       else none)
    else none

/-- Function `clean_content` (lines 13-23). -/
def clean_content (content : String) : String :=
  let s1 := rwAux trySub1 content.data.length content.data
  let s2 := rwAux (tryRep ("On this pageCopy".data) []) s1.length s1
  let s3 := rwAux trySub3 s2.length s2
  let s4 := rwAux trySub4 s3.length s3
  String.mk (trimL s4)

/-! ### `format_table` (lines 77-115) -/

/-- Python `str.ljust(w)` (space fill). -/
def ljustS (s : String) (w : Nat) : String :=
  s ++ String.mk (List.replicate (w - s.length) ' ')

/-- Width of column `i`: the longest cell at index `i` over the data rows
(header lengths are not consulted; rows shorter than `i+1` contribute
nothing), lines 86-93. -/
def colWidth (rows : List (List String)) (i : Nat) : Nat :=
  rows.foldl (fun m r => match r.get? i with | some c => max m c.length | none => m) 0

/-- The `col_widths` list: one width per header cell. -/
def colWidths (headers : List String) (rows : List (List String)) : List Nat :=
  (List.range headers.length).map (colWidth rows)

/-- The cell list of one data row (lines 105-111): one cell per column,
left-justified; a missing trailing cell renders as the empty string. -/
def dataCells (ws : List Nat) (row : List String) : List String :=
  (List.range ws.length).map
    (fun i => match row.get? i with | some c => ljustS c (ws.getD i 0) | none => "")

/-- Function `format_table` (lines 77-115). -/
def format_table (headers : List String) (rows : List (List String)) : String :=
  if headers.isEmpty || rows.isEmpty then "" else
  let ws := colWidths headers rows
  let headerRow :=
    "| " ++ String.intercalate "|" ((headers.zip ws).map (fun p => ljustS p.1 p.2)) ++ " |"
  let sep :=
    "| " ++ String.intercalate "|" (ws.map (fun w => String.mk (List.replicate w '-'))) ++ " |"
  let dataRows := rows.map (fun r => "| " ++ String.intercalate "|" (dataCells ws r) ++ " |")
  String.intercalate "\n" ([headerRow, sep] ++ dataRows) ++ "\n"

/-! ### Grouping and sorting shared by `generate_toc` (lines 117-136) and
`generate_documentation` (lines 177-225)

Python groups pages into a dict keyed by category (insertion order) and
then iterates `sorted(categories.items())`; pages inside a category are
`sorted(..., key=title)` with a stable sort.  Category keys are distinct,
so sorting them lexicographically gives the same list whatever their
pre-sort order; we therefore build the key list with `dedup`.
`insertionSort` is stable, like Python's sort, so the page order also
agrees. -/

def catOf (p : Page) : String := get_page_category p.url

/-- Page comparison used by `sorted(pages_list, key=lambda p: p['title'])`. -/
def pageLe (a b : Page) : Prop := a.title ≤ b.title

instance : DecidableRel pageLe :=
  fun a b => inferInstanceAs (Decidable (a.title ≤ b.title))

instance : IsTotal Page pageLe := ⟨fun a b => le_total a.title b.title⟩

instance : IsTrans Page pageLe := ⟨fun _ _ _ h1 h2 => le_trans h1 h2⟩

/-- The distinct category keys, sorted lexicographically — the order of
`sorted(categories.items())`.  (Python's dict holds the keys in first
insertion order and `dedup` keeps another order, but the keys are
distinct, so after sorting the list is the same.) -/
def sortedKeys (pages : List Page) : List String :=
  ((pages.map catOf).dedup).insertionSort (fun a b => a ≤ b)

/-- One `(category, pages)` item: the pages of that category in input
order, stably sorted by title (`sorted(pages_list, key=...title...)`). -/
def pageGroup (pages : List Page) (c : String) : String × List Page :=
  (c, (pages.filter (fun p => catOf p == c)).insertionSort pageLe)

/-- Python's `sorted(categories.items())` with the per-category page lists sorted
by title, as both Renderer loops do. -/
def groupBlocks (pages : List Page) : List (String × List Page) :=
  (sortedKeys pages).map (pageGroup pages)

/-- The category blocks both loops actually emit: `'Other'` is skipped. -/
def nonOtherBlocks (pages : List Page) : List (String × List Page) :=
  (groupBlocks pages).filter (fun b => b.1 != "Other")

/-- One table-of-contents entry (lines 133-134): link text is the title
with `' | Hyperliquid Docs'` removed and stripped; the anchor is that
text lowercased with spaces replaced by hyphens. -/
def tocEntry (p : Page) : String :=
  let t := pyStrip (pyReplace p.title " | Hyperliquid Docs" "")
  "- [" ++ t ++ "](#" ++ pyReplace (pyLower t) " " "-" ++ ")"

/-- Function `generate_toc` (lines 117-136). -/
def generate_toc (pages : List Page) : String :=
  String.intercalate "\n" ("# Table of Contents\n" ::
    (nonOtherBlocks pages).flatMap
      (fun b => ("\n## " ++ b.1 ++ "\n") :: b.2.map tocEntry))

/-! ### `process_page` (lines 138-175) and `generate_documentation`
(lines 177-225) -/

/-- The table part of a page's Markdown lines (lines 170-173): a table is
rendered only when both its headers and its rows are non-empty. -/
def tablesMd (tables : List TableRec) : List String :=
  tables.filterMap
    (fun t => if !t.headers.isEmpty && !t.rows.isEmpty
              then some (format_table t.headers t.rows) else none)

/-- The Markdown lines of a page after its `# title` heading: sections,
cleaned content (if non-empty), code blocks, tables. -/
def pageRestLines (page : Page) : List String :=
  (page.sections.map
    (fun s => "\n" ++ String.mk (List.replicate s.level '#') ++ " " ++ s.title ++ "\n"))
  ++ (if clean_content page.content == "" then []
      else ["\n" ++ clean_content page.content ++ "\n"])
  ++ (page.codeBlocks.map
    (fun cb => "\n```" ++ cb.language ++ "\n" ++ cb.code ++ "\n```\n"))
  ++ tablesMd page.tables

/-- Function `process_page` (lines 138-175). -/
def process_page (page : Page) : String :=
  String.intercalate "\n"
    (("\n# " ++ pyStrip (pyReplace page.title " | Hyperliquid Docs" "") ++ "\n")
      :: pageRestLines page)

/-- The input the Renderer reads from the JSON file; it uses only
`pages` and `extractedAt` (with `data.get` defaults not exercised here). -/
structure DocData where
  extractedAt : String
  pages : List Page
deriving DecidableEq

/-- The four lines emitted per page inside a category block of the body
(lines 207-218). -/
def bodyPageLines (p : Page) : List String :=
  ["\n### " ++ pyStrip (pyReplace p.title " | Hyperliquid Docs" "") ++ "\n",
   "\n**Source:** " ++ p.url ++ "\n",
   process_page p,
   "\n---\n"]

/-- Function `generate_documentation` (lines 177-225). -/
def generate_documentation (data : DocData) : String :=
  let pages := data.pages
  String.intercalate "\n"
    (["# Hyperliquid Complete Documentation\n",
      "\n> Extracted from https://hyperliquid.gitbook.io/hyperliquid-docs\n",
      "\n> Extracted at: " ++ data.extractedAt ++ "\n",
      "\n> Total pages: " ++ toString pages.length ++ "\n",
      "\n---\n",
      generate_toc pages,
      "\n---\n"]
     ++ (nonOtherBlocks pages).flatMap
          (fun b => ("\n## " ++ b.1 ++ "\n") :: b.2.flatMap bodyPageLines)
     ++ ["\n---\n",
         "\n*Documentation generated from extracted data*\n",
         "*All content preserved from original source*\n"])

/-! ## Helper lemmas -/

/-- Counting a guarded `filterMap` equals counting a `filter`. -/
theorem length_filterMap_guard {α β : Type} (p : α → Bool) (g : α → β) :
    ∀ l : List α,
      (l.filterMap (fun a => if p a then some (g a) else none)).length
        = (l.filter p).length
  | [] => rfl
  | a :: l => by
    by_cases h : p a = true <;>
      simp [List.filterMap_cons, List.filter_cons, h, length_filterMap_guard p g l]

/-- A URL containing the developer-HyperEVM marker also contains the
plain HyperEVM marker. -/
theorem hyperevm_marker_sub (url : String) :
    hasSub url "/for-developers/hyperevm/" = true → hasSub url "/hyperevm/" = true := by
  intro h
  have h2 : ("/for-developers/hyperevm/").data <:+: url.data := of_decide_eq_true h
  have h1 : ("/hyperevm/").data <:+: ("/for-developers/hyperevm/").data := by decide
  exact decide_eq_true (h1.trans h2)

/-- Evaluation of `Char.ofNat` on a valid code point. -/
theorem toNat_ofNat_valid (n : Nat) (h : n.isValidChar) : (Char.ofNat n).toNat = n := by
  unfold Char.ofNat
  rw [dif_pos h]
  unfold Char.ofNatAux Char.toNat UInt32.toNat
  simp

/-- ASCII lowercasing never produces `'<'` from another character. -/
theorem toLower_ne_lt {c : Char} (h : c ≠ '<') : c.toLower ≠ '<' := by
  unfold Char.toLower
  by_cases hr : c.toNat ≥ 65 ∧ c.toNat ≤ 90
  · simp only [if_pos hr]
    intro heq
    have hval : Nat.isValidChar (c.toNat + 32) := by left; omega
    have h1 : (Char.ofNat (c.toNat + 32)).toNat = c.toNat + 32 := toNat_ofNat_valid _ hval
    have h60 : (Char.ofNat (c.toNat + 32)).toNat = 60 := by rw [heq]; rfl
    omega
  · simp only [if_neg hr]
    exact h

/-- A case-insensitive literal matches itself (followed by anything). -/
theorem ciPref_self_append : ∀ (p r : List Char), ciPref p (p ++ r) = true
  | [], _ => rfl
  | c :: p, r => by simp [ciPref, ciPref_self_append p r]

/-- One unfolding step of `ciPref`. -/
theorem ciPref_cons (p c : Char) (ps cs : List Char) :
    ciPref (p :: ps) (c :: cs) = ((p.toLower == c.toLower) && ciPref ps cs) := rfl

/-- A stop literal beginning with `'<'` cannot fire at a character other
than `'<'`. -/
theorem ciStop_lt_none (l : List Char) (c : Char) (t : List Char) (hc : c ≠ '<') :
    ciStop ('<' :: l) (c :: t) = none := by
  have hlow : ('<'.toLower == c.toLower) = false := by
    have hne : c.toLower ≠ '<' := toLower_ne_lt hc
    have : ('<' : Char).toLower = '<' := rfl
    rw [this]
    exact beq_eq_false_iff_ne.mpr (fun h => hne h.symm)
  have hpref : ciPref ('<' :: l) (c :: t) = false := by
    rw [ciPref_cons, hlow, Bool.false_and]
  simp [ciStop, hpref]

/-- The lazy capture `(.*?)` runs through text free of `'<'` straight to
the stop literal: on `t ++ lit ++ rest` it captures exactly `t`. -/
theorem lazyScan_append (l' : List Char) (allowNl : Bool) :
    ∀ (t rest : List Char), (∀ c ∈ t, c ≠ '<') →
      (allowNl = true ∨ ∀ c ∈ t, c ≠ '\n') →
      lazyScan (ciStop ('<' :: l')) allowNl (t ++ '<' :: (l' ++ rest))
        = some (t, rest)
  | [], rest, _, _ => by
    have hstop : ciStop ('<' :: l') ('<' :: (l' ++ rest)) = some (l'.length + 1) := by
      have hp : ciPref ('<' :: l') ('<' :: (l' ++ rest)) = true := by
        have := ciPref_self_append ('<' :: l') rest
        simpa using this
      simp [ciStop, hp]
    simp [lazyScan, hstop, List.drop_left]
  | c :: t, rest, ht, hnl => by
    have hc : c ≠ '<' := ht c (List.mem_cons_self c t)
    have hstop : ciStop ('<' :: l') (c :: (t ++ '<' :: (l' ++ rest))) = none :=
      ciStop_lt_none l' c (t ++ '<' :: (l' ++ rest)) hc
    have hcond : (decide (allowNl = false) && decide (c = '\n')) = false := by
      rcases hnl with h | h
      · simp [h]
      · simp [h c (List.mem_cons_self c t)]
    have ih := lazyScan_append l' allowNl t rest
      (fun x hx => ht x (List.mem_cons_of_mem c hx))
      (hnl.imp id (fun h x hx => h x (List.mem_cons_of_mem c hx)))
    simp only [List.cons_append, lazyScan, List.append_eq, hstop, hcond]
    rw [ih]
    simp

/-- Fact: `stripTagsL` is the identity on text containing no `'<'`. -/
theorem rwAux_tryStrip_id : ∀ (t : List Char) (n : Nat), t.length ≤ n →
    (∀ c ∈ t, c ≠ '<') → rwAux tryStrip n t = t
  | [], n, _, _ => by cases n <;> rfl
  | c :: t, 0, h, _ => by simp at h
  | c :: t, n + 1, h, ht => by
    have hc : c ≠ '<' := ht c (List.mem_cons_self c t)
    have ih := rwAux_tryStrip_id t n (by simpa using h)
      (fun x hx => ht x (List.mem_cons_of_mem c hx))
    simp [rwAux, tryStrip, hc, ih]

/-- Fact: `stripTagsL` is the identity on text containing no `'<'`. -/
theorem stripTagsL_no_lt (t : List Char) (ht : ∀ c ∈ t, c ≠ '<') :
    stripTagsL t = t :=
  rwAux_tryStrip_id t t.length (le_refl _) ht

/-! ## Claims -/

/-- C1 (code_bug evidence).  The spec's example input
`<pre><code class="language-python">x &lt;&gt; y</code></pre>`: the code
as written does *not* decode HTML entities — line 57 replaces each
character by itself (`.replace("<", "<")` etc., the entity names having
been lost from the literals), and line 58 is not even valid Python — so
the captured code text stays `x &lt;&gt; y` instead of the claimed
`x <> y`. -/
theorem C1_entities_not_decoded :
    extract_code_blocks "<pre><code class=\"language-python\">x &lt;&gt; y</code></pre>"
        = [⟨"python", "x &lt;&gt; y"⟩]
      ∧ "x &lt;&gt; y" ≠ "x <> y" := by
  constructor
  · decide
  · decide

/-- C3 (code_bug evidence).  `get_page_category` tests `/hyperevm/`
*before* `/for-developers/hyperevm/`, and every URL containing the
latter contains the former, so a developer-HyperEVM URL is categorized
`HyperEVM` and the `HyperEVM for Developers` branch is unreachable:
no URL at all ever yields that label. -/
theorem C3_hyperevm_branch_dead :
    get_page_category "docs/for-developers/hyperevm/tools" = "HyperEVM"
      ∧ ∀ url : String,
          (get_page_category url == "HyperEVM for Developers") = false := by
  constructor
  · decide
  · intro url
    unfold get_page_category
    by_cases h1 : hasSub url "/about-hyperliquid/" = true
    · rw [if_pos h1]; decide
    rw [if_neg h1]
    by_cases h2 : hasSub url "/onboarding/" = true
    · rw [if_pos h2]; decide
    rw [if_neg h2]
    by_cases h3 : hasSub url "/hypercore/" = true
    · rw [if_pos h3]; decide
    rw [if_neg h3]
    by_cases h4 : hasSub url "/hyperevm/" = true
    · rw [if_pos h4]; decide
    rw [if_neg h4]
    by_cases h5 : hasSub url "/trading/" = true
    · rw [if_pos h5]; decide
    rw [if_neg h5]
    by_cases h6 : hasSub url "/validators/" = true
    · rw [if_pos h6]; decide
    rw [if_neg h6]
    by_cases h7 : hasSub url "/for-developers/api/" = true
    · rw [if_pos h7]; decide
    rw [if_neg h7]
    by_cases h8 : hasSub url "/for-developers/hyperevm/" = true
    · exact absurd (hyperevm_marker_sub url h8) h4
    rw [if_neg h8]
    by_cases h9 : hasSub url "/for-developers/nodes" = true
    · rw [if_pos h9]; decide
    rw [if_neg h9]
    by_cases h10 : hasSub url "/historical-data/" = true
    · rw [if_pos h10]; decide
    rw [if_neg h10]
    by_cases h11 : hasSub url "/risks/" = true
    · rw [if_pos h11]; decide
    rw [if_neg h11]
    by_cases h12 : hasSub url "/referrals/" = true
    · rw [if_pos h12]; decide
    rw [if_neg h12]
    by_cases h13 : hasSub url "/points/" = true
    · rw [if_pos h13]; decide
    rw [if_neg h13]
    by_cases h14 : hasSub url "/bug-bounty-program/" = true
    · rw [if_pos h14]; decide
    rw [if_neg h14]
    by_cases h15 : hasSub url "/audits/" = true
    · rw [if_pos h15]; decide
    rw [if_neg h15]
    by_cases h16 : hasSub url "/brand-kit/" = true
    · rw [if_pos h16]; decide
    rw [if_neg h16]
    by_cases h17 : hasSub url "/hyperliquid-improvement-proposals-" = true
    · rw [if_pos h17]; decide
    rw [if_neg h17]
    decide

/-- C4 (confirmed).  For every Extractor run, the emitted
`DocumentSet` satisfies `totalPages = len(pages)`, and `totalPages`
equals the number of input files ending in `.html` (one page is appended
per such file). -/
theorem C4_total_pages (now : String) (files : List (String × String)) :
    (runExtractor now files).totalPages = (runExtractor now files).pages.length
      ∧ (runExtractor now files).totalPages
          = (files.filter (fun f => f.1.endsWith ".html")).length := by
  refine ⟨rfl, ?_⟩
  simpa [runExtractor] using
    length_filterMap_guard (fun f : String × String => f.1.endsWith ".html")
      (fun f => processFile f.1 f.2) files

/-- C5 (confirmed).  A data row with fewer cells than there are
columns renders its missing trailing cells as the empty string (the
formatter is total, so nothing can be raised); in particular a
two-column table whose only body row has one cell renders with a blank
second cell. -/
theorem C5_short_rows_render_blank :
    (∀ (ws : List Nat) (row : List String) (i : Nat),
        row.length ≤ i → i < ws.length → (dataCells ws row)[i]? = some "")
      ∧ format_table ["A", "B"] [["x"]] = "| A|B |\n| -| |\n| x| |\n" := by
  constructor
  · intro ws row i hrow hi
    have hnone : row[i]? = none := by
      simpa using List.get?_eq_none.mpr hrow
    unfold dataCells
    rw [List.getElem?_map, List.getElem?_range hi]
    simp [hnone]
  · decide

/-- C5 witness: the general part instantiated at the claim's own
two-column scenario (`ws = colWidths ["A","B"] [["x"]] = [1, 0]`,
row `["x"]`, missing cell index `1`). -/
theorem C5_short_rows_render_blank_witness :
    (["x"] : List String).length ≤ 1 ∧ 1 < ([1, 0] : List Nat).length
      ∧ (dataCells [1, 0] ["x"])[1]? = some "" :=
  ⟨by decide, by decide,
    C5_short_rows_render_blank.1 [1, 0] ["x"] 1 (by decide) (by decide)⟩

/-- C6 (confirmed).  `generate_documentation` is a pure function of
its input: equal `DocData` values render to identical Markdown strings
(the grouping dict is keyed and then sorted, the sorts are
deterministic, and no other state enters). -/
theorem C6_render_deterministic (d1 d2 : DocData) (h : d1 = d2) :
    generate_documentation d1 = generate_documentation d2 := by rw [h]

/-- C6 witness: the determinism theorem applied at a concrete input. -/
theorem C6_render_deterministic_witness :
    generate_documentation ⟨"2024-01-01T00:00:00Z", []⟩
      = generate_documentation ⟨"2024-01-01T00:00:00Z", []⟩ :=
  C6_render_deterministic ⟨"2024-01-01T00:00:00Z", []⟩ ⟨"2024-01-01T00:00:00Z", []⟩ rfl

/-- C2 counterexample.  The well-formed heading `<h2>Title</h2>` is
*not* captured: the regex demands the literal closing token `</h>`, and
`</h2>` does not contain it. -/
theorem C2_h2_heading_skipped : extract_sections "<h2>Title</h2>" = [] := by decide

/-- C2 (amended).  A heading is captured exactly when its text is
followed by the literal token `</h>`: `<h?>text</h>` (text free of `<`)
yields one Heading with that level and the trimmed text; matches come in
document order with inner markup stripped, and a heading closed only by
`</h2>`-style tags (or unclosed) is skipped. -/
theorem C2_headings_literal_close :
    (∀ (d : Char) (t : List Char),
        (d = '1' ∨ d = '2' ∨ d = '3' ∨ d = '4' ∨ d = '5' ∨ d = '6') →
        (∀ c ∈ t, c ≠ '<') →
        scanSecs ('<' :: 'h' :: d :: '>' :: (t ++ ['<', '/', 'h', '>']))
          = [⟨d.toNat - 48, String.mk (trimL t)⟩])
      ∧ extract_sections "<h1>A</h><h2>B</h>" = [⟨1, "A"⟩, ⟨2, "B"⟩]
      ∧ extract_sections "<h2><b>Ti</b>tle</h>" = [⟨2, "Title"⟩]
      ∧ extract_sections "<h3>Unclosed" = [] := by
  refine ⟨?_, by decide, by decide, by decide⟩
  intro d t hd ht
  have hdigit : ('h' = 'h' ∨ 'h' = 'H') ∧ ('1' ≤ d ∧ d ≤ '6') := by
    refine ⟨Or.inl rfl, ?_⟩
    rcases hd with h | h | h | h | h | h <;> subst h <;> exact ⟨by decide, by decide⟩
  have hlazy := lazyScan_append ['/', 'h', '>'] true t [] ht (Or.inl rfl)
  simp only [List.append_nil] at hlazy
  have hstrip := stripTagsL_no_lt t ht
  unfold scanSecs
  simp only [List.length_cons]
  rw [scanAux]
  simp [tryHeading, takeToGt, hdigit.2.1, hdigit.2.2, hlazy, hstrip, scanAux]

/-- C2 witness: the general part of the amended claim applied at
`<h2>Title</h>`. -/
theorem C2_headings_literal_close_witness :
    ('2' = '1' ∨ '2' = '2' ∨ '2' = '3' ∨ '2' = '4' ∨ '2' = '5' ∨ '2' = '6')
      ∧ (∀ c ∈ ("Title".data), c ≠ '<')
      ∧ scanSecs ('<' :: 'h' :: '2' :: '>' :: ("Title".data ++ ['<', '/', 'h', '>']))
          = [⟨'2'.toNat - 48, String.mk (trimL ("Title".data))⟩] :=
  ⟨by decide, by decide,
    C2_headings_literal_close.1 '2' ("Title".data) (by decide) (by decide)⟩

/-- C8 counterexample.  A document whose `<title>` element spans two
lines extracts `"Untitled"` even though a `<title>` element is present
(the pattern is compiled without DOTALL, so `(.*?)` cannot cross the
newline), refuting the claimed "if and only if no `<title>` element is
present". -/
theorem C8_multiline_title_untitled :
    extract_title "<title>A\nB</title>" = "Untitled"
      ∧ ("<title>".data <:+: ("<title>A\nB</title>").data) := by
  constructor
  · decide
  · decide

/-- C8 (amended).  `extract_title` returns the tag-stripped, trimmed
text of the first single-line literal `<title>…</title>` match
(case-insensitive) and `"Untitled"` when no such match exists — even if a
`<title>` element is present with attributes or a line break; it is a
total function, so nothing is raised. -/
theorem C8_title_single_line :
    (∀ (t rest : List Char), (∀ c ∈ t, c ≠ '<') → (∀ c ∈ t, c ≠ '\n') →
        findTitle ("<title>".data ++ (t ++ ("</title>".data ++ rest)))
          = some (String.mk (trimL t)))
      ∧ extract_title "" = "Untitled"
      ∧ extract_title "<title lang=\"en\">Hi</title>" = "Untitled"
      ∧ extract_title "<TITLE> Hi <b>there</b> </TITLE>" = "Hi there" := by
  refine ⟨?_, by decide, by decide, by decide⟩
  intro t rest ht hnl
  show findTitle ('<' :: 't' :: 'i' :: 't' :: 'l' :: 'e' :: '>' ::
      (t ++ '<' :: '/' :: 't' :: 'i' :: 't' :: 'l' :: 'e' :: '>' :: rest)) = _
  have hpref : ciPref ['t', 'i', 't', 'l', 'e', '>']
      ('t' :: 'i' :: 't' :: 'l' :: 'e' :: '>' ::
        (t ++ '<' :: '/' :: 't' :: 'i' :: 't' :: 'l' :: 'e' :: '>' :: rest)) = true := by
    have := ciPref_self_append ['t', 'i', 't', 'l', 'e', '>']
      (t ++ '<' :: '/' :: 't' :: 'i' :: 't' :: 'l' :: 'e' :: '>' :: rest)
    simpa using this
  have hlazy := lazyScan_append ("/title>".data) false t rest ht (Or.inr hnl)
  simp only [List.cons_append, List.nil_append] at hlazy
  have hstrip := stripTagsL_no_lt t ht
  rw [findTitle]
  simp only [tryTitle, if_pos (And.intro rfl hpref)]
  have hdrop : List.drop 6
      ('t' :: 'i' :: 't' :: 'l' :: 'e' :: '>' ::
        (t ++ '<' :: '/' :: 't' :: 'i' :: 't' :: 'l' :: 'e' :: '>' :: rest))
      = t ++ '<' :: '/' :: 't' :: 'i' :: 't' :: 'l' :: 'e' :: '>' :: rest := rfl
  rw [hdrop, hlazy]
  simp [hpref, hstrip]

/-- C8 witness: the general part of the amended claim applied at
`<title> Hi </title>`. -/
theorem C8_title_single_line_witness :
    (∀ c ∈ (" Hi ".data), c ≠ '<') ∧ (∀ c ∈ (" Hi ".data), c ≠ '\n')
      ∧ findTitle ("<title>".data ++ (" Hi ".data ++ ("</title>".data ++ [])))
          = some (String.mk (trimL (" Hi ".data))) :=
  ⟨by decide, by decide,
    C8_title_single_line.1 (" Hi ".data) [] (by decide) (by decide)⟩

/-- C9 counterexample.  The claim says the literal *suffix*
`' | Hyperliquid Docs'` is removed and the stored title is otherwise used
verbatim.  For the title `"a | Hyperliquid Docs b"` the marker occurs
only mid-string (not as a suffix), yet the rendered page heading is
`"\n# a b\n"`, not the verbatim `"\n# a | Hyperliquid Docs b\n"`: the code
removes *every* occurrence (Python `str.replace`) and always trims. -/
theorem C9_midstring_occurrence_removed :
    process_page ⟨"u", "a | Hyperliquid Docs b", "", [], [], []⟩ = "\n# a b\n"
      ∧ "\n# a b\n" ≠ "\n# a | Hyperliquid Docs b\n" := by
  constructor
  · decide
  · decide

/-- C9 (amended).  At all three display sites — table-of-contents
entries, the page's `#` heading, and the body's `###` heading — the
displayed title is the stored title with *every* occurrence of
`' | Hyperliquid Docs'` removed and the result stripped of surrounding
whitespace; the spec never mentions this transformation. -/
theorem C9_display_title_transform :
    (∀ p : Page,
        tocEntry p
            = "- [" ++ pyStrip (pyReplace p.title " | Hyperliquid Docs" "") ++ "](#"
              ++ pyReplace
                  (pyLower (pyStrip (pyReplace p.title " | Hyperliquid Docs" ""))) " " "-"
              ++ ")"
          ∧ process_page p
            = String.intercalate "\n"
                (("\n# " ++ pyStrip (pyReplace p.title " | Hyperliquid Docs" "") ++ "\n")
                  :: pageRestLines p)
          ∧ bodyPageLines p
            = ["\n### " ++ pyStrip (pyReplace p.title " | Hyperliquid Docs" "") ++ "\n",
               "\n**Source:** " ++ p.url ++ "\n",
               process_page p,
               "\n---\n"])
      ∧ tocEntry ⟨"u", " a | Hyperliquid Docs b ", "", [], [], []⟩ = "- [a b](#a-b)" :=
  ⟨fun _ => ⟨rfl, rfl, rfl⟩, by decide⟩

/-- Column widths ignore row cells beyond the header count. -/
theorem colWidths_take (headers : List String) (rows : List (List String)) :
    colWidths headers (rows.map (fun r => r.take headers.length)) = colWidths headers rows := by
  unfold colWidths
  apply List.map_congr_left
  intro i hi
  have hi' : i < headers.length := List.mem_range.mp hi
  unfold colWidth
  rw [List.foldl_map]
  apply List.foldl_ext
  intro a r hr
  have htake : (List.take headers.length r)[i]? = r[i]? := by
    simp [List.getElem?_take, hi']
  simp only [List.get?_eq_getElem?, htake]

/-- A data row's rendered cells ignore cells beyond the column count. -/
theorem dataCells_take (ws : List Nat) (row : List String) (n : Nat) (hn : ws.length ≤ n) :
    dataCells ws (row.take n) = dataCells ws row := by
  unfold dataCells
  apply List.map_congr_left
  intro i hi
  have hi' : i < ws.length := List.mem_range.mp hi
  have htake : (List.take n row)[i]? = row[i]? := by
    simp [List.getElem?_take, lt_of_lt_of_le hi' hn]
  simp only [List.get?_eq_getElem?, htake]

/-- Truncating every row to the header count does not change the
rendered table. -/
theorem format_table_take (headers : List String) (rows : List (List String)) :
    format_table headers rows
      = format_table headers (rows.map (fun r => r.take headers.length)) := by
  have hws : (colWidths headers rows).length ≤ headers.length := by simp [colWidths]
  unfold format_table
  have hcond : ((rows.map (fun r => r.take headers.length)).isEmpty) = rows.isEmpty := by
    cases rows <;> rfl
  rw [colWidths_take, hcond]
  by_cases hc : (headers.isEmpty || rows.isEmpty) = true
  · rw [if_pos hc, if_pos hc]
  · rw [if_neg hc, if_neg hc]
    have hdata : List.map
        (fun row => "| " ++ "|".intercalate (dataCells (colWidths headers rows) row) ++ " |")
        (rows.map (fun r => List.take headers.length r))
        = List.map
        (fun row => "| " ++ "|".intercalate (dataCells (colWidths headers rows) row) ++ " |")
        rows := by
      rw [List.map_map]
      apply List.map_congr_left
      intro x hx
      simp only [Function.comp_apply]
      rw [dataCells_take _ _ _ hws]
    dsimp only
    rw [hdata]

/-- C10 (confirmed, implicit).  The rendered column count is fixed by
the headers alone: every data row renders exactly `len(headers)` cells,
trailing cells beyond the header count are silently dropped (truncating
them changes nothing), and a table with empty headers or empty rows is
omitted from the page entirely. -/
theorem C10_columns_from_headers :
    (∀ (headers : List String) (rows : List (List String)),
        format_table headers rows
          = format_table headers (rows.map (fun r => r.take headers.length)))
      ∧ (∀ (ws : List Nat) (row : List String), (dataCells ws row).length = ws.length)
      ∧ (∀ (t : TableRec) (ts1 ts2 : List TableRec),
          t.headers = [] ∨ t.rows = [] →
            tablesMd (ts1 ++ t :: ts2) = tablesMd (ts1 ++ ts2))
      ∧ format_table ["A"] [["x", "dropped"]] = "| A |\n| - |\n| x |\n" := by
  refine ⟨format_table_take, ?_, ?_, by decide⟩
  · intro ws row
    simp [dataCells]
  · intro t ts1 ts2 h
    rcases h with h | h <;>
      simp [tablesMd, List.filterMap_append, List.filterMap_cons, h]

/-- C10 witness: a table with empty headers is omitted wherever it
appears in the page's table list. -/
theorem C10_columns_from_headers_witness :
    ((⟨[], [["y"]]⟩ : TableRec).headers = [] ∨ (⟨[], [["y"]]⟩ : TableRec).rows = [])
      ∧ tablesMd ([] ++ (⟨[], [["y"]]⟩ : TableRec) :: []) = tablesMd ([] ++ []) :=
  ⟨Or.inl rfl, C10_columns_from_headers.2.2.1 ⟨[], [["y"]]⟩ [] [] (Or.inl rfl)⟩

/-! ## C7: table-of-contents structure -/

/-- A sample page whose stored title carries the site suffix. -/
def feesPage : Page :=
  ⟨"https://hyperliquid.gitbook.io/hyperliquid-docs/trading/fees",
   "Fees | Hyperliquid Docs", "", [], [], []⟩

/-- C7 counterexample.  For a page titled `"Fees | Hyperliquid Docs"`
the claim's anchor — the page's lowercase title with spaces replaced by
hyphens, i.e. `fees-|-hyperliquid-docs` — appears nowhere in the
table of contents; the emitted entry is `- [Fees](#fees)`, whose anchor
is built from the title only after `' | Hyperliquid Docs'` is stripped. -/
theorem C7_anchor_not_raw_title :
    generate_toc [feesPage]
        = "# Table of Contents\n\n\n## Trading\n\n- [Fees](#fees)"
      ∧ ¬ (("fees-|-hyperliquid-docs").data
            <:+: (generate_toc [feesPage]).data) := by
  constructor
  · decide
  · decide

/-- Splitting a list by the distinct values of `f` (for the keys in `K`)
and concatenating the groups permutes the elements whose `f`-value is not
the excluded key `o`. -/
theorem flatMap_filter_perm {α β : Type} [DecidableEq β] (f : α → β) (o : β) :
    ∀ (K : List β) (L : List α), K.Nodup → (∀ k ∈ K, k ≠ o) →
      (∀ p ∈ L, f p ≠ o → f p ∈ K) →
      (K.flatMap (fun k => L.filter (fun p => f p == k))).Perm
        (L.filter (fun p => f p != o))
  | [], L, _, _, hcomp => by
    have : L.filter (fun p => f p != o) = [] := by
      rw [List.filter_eq_nil_iff]
      intro a ha
      simp only [bne_iff_ne, ne_eq, Decidable.not_not]
      by_contra hne
      exact absurd (hcomp a ha hne) (List.not_mem_nil _)
    simp [this]
  | k :: K', L, hnd, ho, hcomp => by
    have hk_notmem : k ∉ K' := (List.nodup_cons.mp hnd).1
    have hnd' : K'.Nodup := (List.nodup_cons.mp hnd).2
    have hko : k ≠ o := ho k (List.mem_cons_self _ _)
    have hA : K'.flatMap (fun k' => L.filter (fun p => f p == k'))
        = K'.flatMap (fun k' => (L.filter (fun p => f p != k)).filter (fun p => f p == k')) := by
      apply List.flatMap_congr
      intro k' hk'
      have hkk : k' ≠ k := fun h => hk_notmem (h ▸ hk')
      rw [List.filter_filter]
      apply List.filter_congr
      intro x hx
      by_cases hfx : f x = k'
      · simp [hfx, hkk]
      · simp [hfx]
    have hcomp' : ∀ p ∈ L.filter (fun p => f p != k), f p ≠ o → f p ∈ K' := by
      intro p hp hpo
      have hmem := List.mem_filter.mp hp
      have hne : f p ≠ k := by simpa using hmem.2
      rcases List.mem_cons.mp (hcomp p hmem.1 hpo) with h | h
      · exact absurd h hne
      · exact h
    have ih := flatMap_filter_perm f o K' (L.filter (fun p => f p != k)) hnd'
      (fun x hx => ho x (List.mem_cons_of_mem _ hx)) hcomp'
    have hsplit := List.filter_append_perm (fun p => f p == k) (L.filter (fun p => f p != o))
    have hX : (L.filter (fun p => f p != o)).filter (fun p => f p == k)
        = L.filter (fun p => f p == k) := by
      rw [List.filter_filter]
      apply List.filter_congr
      intro x hx
      by_cases hfx : f x = k
      · simp [hfx, hko]
      · simp [hfx]
    have hY : (L.filter (fun p => f p != o)).filter (fun x => !(f x == k))
        = (L.filter (fun p => f p != k)).filter (fun p => f p != o) := by
      rw [List.filter_filter, List.filter_filter]
      apply List.filter_congr
      intro x hx
      simp [bne, Bool.and_comm]
    rw [List.flatMap_cons, hA]
    have hfin := hsplit
    rw [hX, hY] at hfin
    exact (List.Perm.append_left _ ih).trans hfin

/-- C7 (amended).  The table of contents contains exactly one entry
per page whose category is not `'Other'` (the emitted entries are a
permutation of `tocEntry` over those pages), category blocks appear in
lexicographic category order, pages inside a block are sorted by their
*stored* title and all belong to the block's category, the rendered toc
string is exactly those blocks joined by newlines, and `'Other'`-category
pages appear in no block — the body loop of `generate_documentation`
iterates the same `nonOtherBlocks`, so they are excluded there too.
(The link text and anchor of each entry come from the *stripped* title,
see `tocEntry`; the anchor is not built from the raw stored title.) -/
theorem C7_toc_grouped_sorted (pages : List Page) :
    ((nonOtherBlocks pages).flatMap (fun b => b.2.map tocEntry)).Perm
        ((pages.filter (fun p => catOf p != "Other")).map tocEntry)
      ∧ ((nonOtherBlocks pages).map Prod.fst).Sorted (fun a b => a ≤ b)
      ∧ (∀ b ∈ nonOtherBlocks pages,
          b.1 ≠ "Other" ∧ (b.2.map Page.title).Sorted (fun a b => a ≤ b)
            ∧ ∀ p ∈ b.2, catOf p = b.1)
      ∧ generate_toc pages
          = String.intercalate "\n" ("# Table of Contents\n" ::
              (nonOtherBlocks pages).flatMap
                (fun b => ("\n## " ++ b.1 ++ "\n") :: b.2.map tocEntry))
      ∧ (∀ p ∈ pages, catOf p = "Other" →
          ∀ b ∈ nonOtherBlocks pages, p ∉ b.2) := by
  have hNO : nonOtherBlocks pages
      = ((sortedKeys pages).filter (fun c => c != "Other")).map (pageGroup pages) := by
    unfold nonOtherBlocks groupBlocks
    rw [List.filter_map]
    congr 1
  have hKnd : (sortedKeys pages).Nodup :=
    ((List.perm_insertionSort _ _).nodup_iff).mpr (List.nodup_dedup _)
  have hKOnd : ((sortedKeys pages).filter (fun c => c != "Other")).Nodup := hKnd.filter _
  have hKOne : ∀ k ∈ (sortedKeys pages).filter (fun c => c != "Other"), k ≠ "Other" :=
    fun k hk => bne_iff_ne.mp (List.mem_filter.mp hk).2
  have hcomp : ∀ p ∈ pages, catOf p ≠ "Other" →
      catOf p ∈ (sortedKeys pages).filter (fun c => c != "Other") := by
    intro p hp hne
    refine List.mem_filter.mpr ⟨?_, bne_iff_ne.mpr hne⟩
    unfold sortedKeys
    exact (List.mem_insertionSort _).mpr ((List.mem_dedup).mpr (List.mem_map_of_mem catOf hp))
  have hmem3 : ∀ b ∈ nonOtherBlocks pages,
      b.1 ≠ "Other" ∧ (b.2.map Page.title).Sorted (fun a b => a ≤ b)
        ∧ ∀ p ∈ b.2, catOf p = b.1 := by
    intro b hb
    rw [hNO] at hb
    obtain ⟨c, hcKO, hgc⟩ := List.mem_map.mp hb
    subst hgc
    refine ⟨bne_iff_ne.mp (List.mem_filter.mp hcKO).2, ?_, ?_⟩
    · have hs : List.Sorted pageLe
          ((pages.filter (fun p => catOf p == c)).insertionSort pageLe) :=
        List.sorted_insertionSort _ _
      exact List.pairwise_map.mpr hs
    · intro p hp
      exact eq_of_beq (List.mem_filter.mp ((List.mem_insertionSort _).mp hp)).2
  refine ⟨?_, ?_, hmem3, rfl, ?_⟩
  · rw [hNO, List.flatMap_map]
    have hpoint : ∀ c ∈ (sortedKeys pages).filter (fun c => c != "Other"),
        ((fun a => List.map tocEntry (pageGroup pages a).2) c).Perm
          ((fun c => List.map tocEntry (List.filter (fun p => catOf p == c) pages)) c) := by
      intro c hc
      exact (List.perm_insertionSort pageLe _).map tocEntry
    refine (List.Perm.flatMap_left _ hpoint).trans ?_
    rw [← List.map_flatMap]
    exact (flatMap_filter_perm catOf "Other" _ pages hKOnd hKOne hcomp).map tocEntry
  · rw [hNO, List.map_map]
    have hfst : List.map (Prod.fst ∘ pageGroup pages)
        ((sortedKeys pages).filter (fun c => c != "Other"))
        = (sortedKeys pages).filter (fun c => c != "Other") := by
      rw [List.map_congr_left (fun x _ => rfl : ∀ x ∈ _, (Prod.fst ∘ pageGroup pages) x = id x)]
      exact List.map_id _
    rw [hfst]
    exact (List.sorted_insertionSort _ _).filter _
  · intro p hp hcat b hb hpb
    obtain ⟨hne, _, hall⟩ := hmem3 b hb
    exact hne ((hall p hpb) ▸ hcat)

/-- C7 witness: the per-block facts of the amended claim applied to a
concrete one-page input. -/
theorem C7_toc_grouped_sorted_witness :
    ("Trading", [feesPage]) ∈ nonOtherBlocks [feesPage]
      ∧ ("Trading", [feesPage]).1 ≠ "Other"
      ∧ ((("Trading", [feesPage]).2.map Page.title).Sorted (fun a b => a ≤ b))
      ∧ (∀ p ∈ ("Trading", [feesPage]).2, catOf p = ("Trading", [feesPage]).1) := by
  have hb : ("Trading", [feesPage]) ∈ nonOtherBlocks [feesPage] := by decide
  have h := (C7_toc_grouped_sorted [feesPage]).2.2.1 ("Trading", [feesPage]) hb
  exact ⟨hb, h.1, h.2.1, h.2.2⟩

end SuperSignal
